import Mathlib

/-!
Shallow embedding of the two core components of `app/main.py` in the
`newshakemap` repository:

* the admission-control queue (`_maintain_and_promote`, `queue_enter`,
  `queue_status`, `queue_heartbeat`, `queue_leave`), and
* the staleness-aware compute cache (`_make_event_key`,
  `_compute_and_store`, `_get_or_compute`).

Timestamps (Python `time.time()` floats) are modelled as integers: the
source only ever subtracts and order-compares them, and every claim is
insensitive to the density of the clock's value domain.
Python dicts are modelled as association lists in insertion order, which is
how the source iterates them; `deque` is a plain list.
-/

/-! ## Admission queue: data model -/

/-- A session key is the pair `(client_id, tab_id)`, both caller-supplied
strings, as in `key = (client_id, tab_id)` in the source. -/
abbrev Key := String × String

/-- Wall-clock timestamps (the source only ever subtracts and compares
them). -/
abbrev Time := ℤ

/-- `MAX_ACTIVE = 10` in the source. -/
def MAX_ACTIVE : Nat := 10

/-- `HEARTBEAT_TIMEOUT = 45.0` in the source. -/
def HEARTBEAT_TIMEOUT : Time := 45

/-- `PROMOTE_BATCH = 5` in the source. -/
def PROMOTE_BATCH : Nat := 5

/-- One entry of `_active` (key ↦ last-seen timestamp) or of `_queue`
(key with its enqueue timestamp). -/
abbrev Entry := Key × Time

/-- The keys of an association list / queue, in order. -/
def akeys (d : List Entry) : List Key := d.map Prod.fst

/-- Dictionary lookup: `_active.get(key)` / `key in _active`. -/
def dlookup : List Entry → Key → Option Time
  | [], _ => none
  | (k1, t) :: rest, k => if k1 = k then some t else dlookup rest k

/-- Dictionary assignment `_active[key] = ts`: update in place if the key is
present (Python dicts keep the original position), else append at the end. -/
def dinsert : List Entry → Key → Time → List Entry
  | [], k, t => [(k, t)]
  | (k1, t1) :: rest, k, t =>
      if k1 = k then (k1, t) :: rest else (k1, t1) :: dinsert rest k t

/-- Removal of the first entry with the given key: `_active.pop(key, None)`
on a duplicate-free dict, and also the `for … if c == client_id … remove …
break` loop over `_queue` in `queue_leave`. -/
def dremove : List Entry → Key → List Entry
  | [], _ => []
  | (k1, t1) :: rest, k => if k1 = k then rest else (k1, t1) :: dremove rest k

/-- The shared state of the admission queue: `_active` and `_queue`. -/
structure QState where
  active : List Entry
  queue : List Entry
deriving DecidableEq, Repr

/-- The empty initial state (`_active = {}`, `_queue = deque()`). -/
def initQState : QState := ⟨[], []⟩

/-- `_queue_position(client_id, tab_id)`: 1-based rank of the key in the
wait queue, `none` if absent. -/
def queue_position : List Entry → Key → Option Nat
  | [], _ => none
  | (k1, _) :: rest, k =>
      if k1 = k then some 1 else (queue_position rest k).map (· + 1)

/-- The expiry scan of `_maintain_and_promote`: drop every active entry with
`(now - ts) > HEARTBEAT_TIMEOUT`, keeping the rest in order. -/
def expireActive (now : Time) (a : List Entry) : List Entry :=
  a.filter (fun p => !decide (now - p.2 > HEARTBEAT_TIMEOUT))

/-- The promotion loop of `_maintain_and_promote`:
`while slots > 0 and _queue and moved < PROMOTE_BATCH`, popping the queue
head; a head already active is discarded, otherwise it is inserted into the
active dict with last-seen `now`, consuming a slot and counting as a
promotion.  Returns the final `_active` and `_queue`. -/
def promoteLoop (now : Time) : Nat → Nat → List Entry → List Entry →
    List Entry × List Entry
  | _, _, [], a => (a, [])
  | slots, moved, (k, ts) :: rest, a =>
      if 0 < slots ∧ moved < PROMOTE_BATCH then
        if (dlookup a k).isSome then
          promoteLoop now slots moved rest a
        else
          promoteLoop now (slots - 1) (moved + 1) rest (dinsert a k now)
      else (a, (k, ts) :: rest)

/-- `_maintain_and_promote`: expiry scan followed by the promotion loop.
`slots = max(0, MAX_ACTIVE - len(_active))` is truncated subtraction. -/
def maintain_and_promote (now : Time) (s : QState) : QState :=
  ⟨(promoteLoop now (MAX_ACTIVE - (expireActive now s.active).length) 0
      s.queue (expireActive now s.active)).1,
   (promoteLoop now (MAX_ACTIVE - (expireActive now s.active).length) 0
      s.queue (expireActive now s.active)).2⟩

/-- Promotion loop written after the words of spec §4.1 step 2: while
`slots > 0`, the queue is non-empty and fewer than `PROMOTE_BATCH`
promotions have occurred, pop the head; a head already in the active set is
discarded without consuming a slot; otherwise it is appended to the active
set with last-seen `now`.  Companion definition for the refinement part of
the maintenance-pass claim. -/
def promoteStep (now : Time) : Nat → Nat → List Entry → List Entry →
    List Entry × List Entry
  | _, _, [], activeSet => (activeSet, [])
  | slots, promoted, head :: tl, activeSet =>
      if slots = 0 ∨ PROMOTE_BATCH ≤ promoted then (activeSet, head :: tl)
      else if head.1 ∈ akeys activeSet then
        promoteStep now slots promoted tl activeSet
      else
        promoteStep now (slots - 1) (promoted + 1) tl
          (activeSet ++ [(head.1, now)])

/-- The maintenance pass written after the words of spec §4.1: remove every
active entry whose last-seen age exceeds `HEARTBEAT_TIMEOUT`, then promote
with `slots = MAX_ACTIVE - |ActiveSet|`. -/
def maintainSpec (now : Time) (s : QState) : QState :=
  ⟨(promoteStep now
      (MAX_ACTIVE -
        (s.active.filter (fun p => decide (now - p.2 ≤ HEARTBEAT_TIMEOUT))).length)
      0 s.queue
      (s.active.filter (fun p => decide (now - p.2 ≤ HEARTBEAT_TIMEOUT)))).1,
   (promoteStep now
      (MAX_ACTIVE -
        (s.active.filter (fun p => decide (now - p.2 ≤ HEARTBEAT_TIMEOUT))).length)
      0 s.queue
      (s.active.filter (fun p => decide (now - p.2 ≤ HEARTBEAT_TIMEOUT)))).2⟩

/-- The JSON replies of the queue routes. -/
inductive QueueReply where
  | activeR (activeCount limit : Nat)
  | queuedR (position : Option Nat) (activeCount limit : Nat)
  | noneR (activeCount limit : Nat)
  | okR (activeCount limit : Nat)
deriving DecidableEq, Repr

/-- Conditional append of `queue_enter`: `if _queue_position(…) is None:
_queue.append((client_id, tab_id, _now()))`. -/
def enterQueue (now : Time) (k : Key) (q : List Entry) : List Entry :=
  if queue_position q k = none then q ++ [(k, now)] else q

/-- Body of `queue_enter` after the maintenance pass. -/
def enterBody (now : Time) (k : Key) (s1 : QState) : QState × QueueReply :=
  if (dlookup s1.active k).isSome then
    (⟨dinsert s1.active k now, s1.queue⟩,
     .activeR (dinsert s1.active k now).length MAX_ACTIVE)
  else if s1.active.length < MAX_ACTIVE then
    (⟨dinsert s1.active k now, s1.queue⟩,
     .activeR (dinsert s1.active k now).length MAX_ACTIVE)
  else
    (⟨s1.active, enterQueue now k s1.queue⟩,
     .queuedR (queue_position (enterQueue now k s1.queue) k)
       s1.active.length MAX_ACTIVE)

/-- `POST /api/queue/enter` (with a well-formed key): maintenance pass, then
the admission decision. -/
def queue_enter (now : Time) (k : Key) (s : QState) : QState × QueueReply :=
  enterBody now k (maintain_and_promote now s)

/-- Body of `queue_status` after the maintenance pass. -/
def statusBody (k : Key) (s1 : QState) : QState × QueueReply :=
  if (dlookup s1.active k).isSome then
    (s1, .activeR s1.active.length MAX_ACTIVE)
  else
    match queue_position s1.queue k with
    | some p => (s1, .queuedR (some p) s1.active.length MAX_ACTIVE)
    | none => (s1, .noneR s1.active.length MAX_ACTIVE)

/-- `GET /api/queue/status`. -/
def queue_status (now : Time) (k : Key) (s : QState) : QState × QueueReply :=
  statusBody k (maintain_and_promote now s)

/-- Body of `queue_heartbeat` after the maintenance pass: like `status`, but
an active key has its last-seen refreshed to `now`. -/
def heartbeatBody (now : Time) (k : Key) (s1 : QState) : QState × QueueReply :=
  if (dlookup s1.active k).isSome then
    (⟨dinsert s1.active k now, s1.queue⟩,
     .activeR (dinsert s1.active k now).length MAX_ACTIVE)
  else
    match queue_position s1.queue k with
    | some p => (s1, .queuedR (some p) s1.active.length MAX_ACTIVE)
    | none => (s1, .noneR s1.active.length MAX_ACTIVE)

/-- `POST /api/queue/heartbeat`. -/
def queue_heartbeat (now : Time) (k : Key) (s : QState) : QState × QueueReply :=
  heartbeatBody now k (maintain_and_promote now s)

/-- The removals performed by `queue_leave` before its maintenance pass:
`_active.pop(key, None)` and removal of the first matching queue entry. -/
def leaveRemove (k : Key) (s : QState) : QState :=
  ⟨dremove s.active k, dremove s.queue k⟩

/-- `POST /api/queue/leave` (with a well-formed key): removals first, then
the maintenance pass, then the reply with the resulting count. -/
def queue_leave (now : Time) (k : Key) (s : QState) : QState × QueueReply :=
  (maintain_and_promote now (leaveRemove k s),
   .okR (maintain_and_promote now (leaveRemove k s)).active.length MAX_ACTIVE)

/-- The order of operations inside `leave` that the specification describes:
maintenance pass first, then the removals, then the reply. -/
def queue_leave_spec (now : Time) (k : Key) (s : QState) : QState × QueueReply :=
  (leaveRemove k (maintain_and_promote now s),
   .okR (leaveRemove k (maintain_and_promote now s)).active.length MAX_ACTIVE)

/-- One admission-queue API call. -/
inductive QOp where
  | enter (now : Time) (k : Key)
  | status (now : Time) (k : Key)
  | heartbeat (now : Time) (k : Key)
  | leave (now : Time) (k : Key)

/-- The state transition of one API call. -/
def stepOp (s : QState) (op : QOp) : QState :=
  match op with
  | .enter now k => (queue_enter now k s).1
  | .status now k => (queue_status now k s).1
  | .heartbeat now k => (queue_heartbeat now k s).1
  | .leave now k => (queue_leave now k s).1

/-- The state reached from the empty state by a sequence of API calls. -/
def runOps (ops : List QOp) : QState := ops.foldl stepOp initQState

/-! ## Compute cache: data model -/

/-- The metadata sub-document used for fingerprinting.  The source reads the
five fields `time_utc`/`time_th`, `lat`, `lon`, `mag`, `depth_km` from
`data["meta"]`; each is either absent (`None`) or an opaque printable value,
modelled as its string rendering. -/
structure Meta where
  time_utc : Option String
  time_th : Option String
  lat : Option String
  lon : Option String
  mag : Option String
  depth_km : Option String
deriving DecidableEq, Repr

/-- An event as returned by `fetch_latest_event_in_thailand()`.  Same fields
as `Meta`, except that the depth field is named `depth` in the event. -/
structure Event where
  time_utc : Option String
  time_th : Option String
  lat : Option String
  lon : Option String
  mag : Option String
  depth : Option String
deriving DecidableEq, Repr

/-- Python truthiness for an optional string: `None` and `""` are falsy. -/
def pyTruthy : Option String → Bool
  | none => false
  | some s => s != ""

/-- Python `a or b` on optional strings. -/
def pyOr (a b : Option String) : Option String := if pyTruthy a then a else b

/-- Python `str()` as applied by an f-string: `None` prints as `"None"`. -/
def pyStr : Option String → String
  | none => "None"
  | some s => s

/-- `_make_event_key(meta)`: the fingerprint
`f"{time_utc or time_th}|{lat}|{lon}|{mag}|{depth_km}"`. -/
def make_event_key (m : Meta) : String :=
  pyStr (pyOr m.time_utc m.time_th) ++ "|" ++ pyStr m.lat ++ "|" ++
    pyStr m.lon ++ "|" ++ pyStr m.mag ++ "|" ++ pyStr m.depth_km

/-- The metadata dict the staleness probe of `_get_or_compute` builds from a
fetched event (its `depth` field becomes `depth_km`). -/
def probeMeta (ev : Event) : Meta :=
  ⟨ev.time_utc, ev.time_th, ev.lat, ev.lon, ev.mag, ev.depth⟩

/-- The result document of `compute_overlay_from_event` /
`simulate_event`: the `meta` sub-document (`data.get("meta", {})`) plus an
opaque payload distinguishing concrete documents. -/
structure DataDoc where
  meta : Meta
  payload : Nat
deriving DecidableEq, Repr

instance {ε α : Type} [DecidableEq ε] [DecidableEq α] :
    DecidableEq (Except ε α) := fun a b =>
  match a, b with
  | .error x, .error y =>
      if h : x = y then .isTrue (congrArg Except.error h)
      else .isFalse (fun he => h (Except.error.inj he))
  | .error _, .ok _ => .isFalse (fun he => Except.noConfusion he)
  | .ok _, .error _ => .isFalse (fun he => Except.noConfusion he)
  | .ok x, .ok y =>
      if h : x = y then .isTrue (congrArg Except.ok h)
      else .isFalse (fun he => h (Except.ok.inj he))

/-- The `_CACHE` dict: `data`, `event_key`, `ts`. -/
structure Cache where
  data : Option DataDoc
  event_key : Option String
  ts : Time
deriving DecidableEq, Repr

/-- Initial cache: `{"data": None, "event_key": None, "ts": 0.0}`. -/
def initCache : Cache := ⟨none, none, 0⟩

/-- The external collaborators (`logic.py`, out of scope per the spec),
modelled as oracles indexed by the call counter: the n-th call to
`fetch_latest_event_in_thailand()` returns `fetch n` (an error, no event, or
an event), and the n-th call to `compute_overlay_from_event(ev)` returns
`compute n ev`. -/
structure Env where
  fetch : Nat → Except String (Option Event)
  compute : Nat → Option Event → Except String DataDoc

/-- Cache state together with the collaborator call counters (used to index
the oracles and to count fetches and expensive computations). -/
structure CState where
  cache : Cache
  nFetch : Nat
  nCompute : Nat
deriving DecidableEq, Repr

/-- Initial cache state with zero collaborator calls. -/
def initCState : CState := ⟨initCache, 0, 0⟩

/-- `_compute_and_store()`: fetch the latest event, compute the overlay from
it, store the document with its fingerprint and timestamp.  An exception in
either collaborator aborts before the cache is written. -/
def compute_and_store (env : Env) (now : Time) (s : CState) :
    CState × Except String DataDoc :=
  match env.fetch s.nFetch with
  | .error e => ({ s with nFetch := s.nFetch + 1 }, .error e)
  | .ok ev =>
    match env.compute s.nCompute ev with
    | .error e =>
        ({ s with nFetch := s.nFetch + 1, nCompute := s.nCompute + 1 },
         .error e)
    | .ok data =>
        (⟨⟨some data, some (make_event_key data.meta), now⟩,
          s.nFetch + 1, s.nCompute + 1⟩, .ok data)

/-- `_get_or_compute(force)`.  With a cached entry and `force=False` the
staleness probe (fetch, fingerprint comparison and, on a detected change,
the recompute itself) runs inside `try: … except Exception: pass`, so any
collaborator failure there falls through to returning the cached entry. -/
def get_or_compute (env : Env) (now : Time) (force : Bool) (s : CState) :
    CState × Except String DataDoc :=
  if force then compute_and_store env now s
  else
    match s.cache.data with
    | none => compute_and_store env now s
    | some cached =>
      match env.fetch s.nFetch with
      | .error _ => ({ s with nFetch := s.nFetch + 1 }, .ok cached)
      | .ok none => ({ s with nFetch := s.nFetch + 1 }, .ok cached)
      | .ok (some ev) =>
        if make_event_key (probeMeta ev) ≠ "" ∧
            s.cache.event_key ≠ some (make_event_key (probeMeta ev)) then
          match env.compute s.nCompute (some ev) with
          | .error _ =>
              ({ s with nFetch := s.nFetch + 1, nCompute := s.nCompute + 1 },
               .ok cached)
          | .ok data =>
              (⟨⟨some data, some (make_event_key (probeMeta ev)), now⟩,
                s.nFetch + 1, s.nCompute + 1⟩, .ok data)
        else ({ s with nFetch := s.nFetch + 1 }, .ok cached)

/-! ## Concrete fixtures used by counterexamples and witnesses -/

/-- Ten distinct session keys filling all active slots. -/
def tenKeys : List Key :=
  [("k1", "t"), ("k2", "t"), ("k3", "t"), ("k4", "t"), ("k5", "t"),
   ("k6", "t"), ("k7", "t"), ("k8", "t"), ("k9", "t"), ("k10", "t")]

/-- A state with all ten active slots taken (last seen at time 0) and one
session waiting in the queue. -/
def fullState : QState :=
  ⟨tenKeys.map (fun k => (k, (0 : Time))), [(("w1", "t"), 0)]⟩

/-- An operation sequence from the empty state: ten sessions fill the active
slots at time 0, six more queue up, and at time 50 (after every active
session expired) the sixth queued session calls `enter` again.  The
maintenance pass promotes only the first five queued sessions
(`PROMOTE_BATCH`), leaving five free slots, so `enter` admits the caller
while its queue entry is still pending. -/
def cexOps : List QOp :=
  (tenKeys.map (fun k => QOp.enter 0 k)) ++
  [.enter 0 ("q1", "t"), .enter 0 ("q2", "t"), .enter 0 ("q3", "t"),
   .enter 0 ("q4", "t"), .enter 0 ("q5", "t"), .enter 0 ("q6", "t"),
   .enter 50 ("q6", "t")]

/-- A fixed event used by cache witnesses. -/
def evA : Event :=
  ⟨some "2025-01-01T00:00:00Z", none, some "18.8", some "98.9",
   some "4.5", some "10"⟩

/-- An overlay document coherent with `evA` (its `meta` carries the same
fingerprint fields, as the spec's collaborator contract requires). -/
def docA : DataDoc := ⟨probeMeta evA, 1⟩

/-- A collaborator environment that always reports `evA` and computes
`docA`. -/
def envA : Env := ⟨fun _ => .ok (some evA), fun _ _ => .ok docA⟩

/-- An overlay document unrelated to `evA`, cached in `sPop`. -/
def docB : DataDoc := ⟨⟨some "old-time", none, none, none, none, none⟩, 9⟩

/-- A populated cache state: `docB` stored under fingerprint `"OLD"` with
some collaborator calls already made. -/
def sPop : CState := ⟨⟨some docB, some "OLD", 3⟩, 4, 2⟩

/-- A collaborator environment whose fetch always fails. -/
def envDown : Env :=
  ⟨fun _ => .error "network down", fun _ _ => .ok docA⟩

/-- A collaborator environment whose fetch reports that no event exists. -/
def envNoEvent : Env := ⟨fun _ => .ok none, fun _ _ => .ok docA⟩

/-- A collaborator environment whose fetch succeeds with `evA` but whose
overlay computation always fails. -/
def envBoom : Env := ⟨fun _ => .ok (some evA), fun _ _ => .error "boom"⟩

/-! ## Dictionary and queue lemmas -/

theorem dlookup_eq_none_iff : ∀ (a : List Entry) (k : Key),
    dlookup a k = none ↔ k ∉ akeys a
  | [], k => by simp [dlookup, akeys]
  | (k1, t1) :: rest, k => by
      by_cases h : k1 = k
      · subst h; simp [dlookup, akeys]
      · simp [dlookup, akeys, h, dlookup_eq_none_iff rest k, Ne.symm h]

theorem dlookup_isSome_iff (a : List Entry) (k : Key) :
    (dlookup a k).isSome = true ↔ k ∈ akeys a := by
  rw [Option.isSome_iff_ne_none, ne_eq, dlookup_eq_none_iff, not_not]

theorem dinsert_of_lookup_none : ∀ (a : List Entry) (k : Key) (t : Time),
    dlookup a k = none → dinsert a k t = a ++ [(k, t)]
  | [], k, t, _ => rfl
  | (k1, t1) :: rest, k, t, h => by
      by_cases hk : k1 = k
      · subst hk; simp [dlookup] at h
      · simp only [dinsert, if_neg hk, List.cons_append, List.cons.injEq,
          true_and]
        exact dinsert_of_lookup_none rest k t (by simpa [dlookup, hk] using h)

theorem akeys_dinsert_of_mem : ∀ (a : List Entry) (k : Key) (t : Time),
    (dlookup a k).isSome = true → akeys (dinsert a k t) = akeys a
  | [], k, t, h => by simp [dlookup] at h
  | (k1, t1) :: rest, k, t, h => by
      by_cases hk : k1 = k
      · simp [dinsert, hk, akeys]
      · have hrest : (dlookup rest k).isSome = true := by
          simpa [dlookup, hk] using h
        simp [dinsert, hk, akeys] at *
        exact akeys_dinsert_of_mem rest k t hrest

theorem length_dinsert_of_mem (a : List Entry) (k : Key) (t : Time)
    (h : (dlookup a k).isSome = true) :
    (dinsert a k t).length = a.length := by
  have := congrArg List.length (akeys_dinsert_of_mem a k t h)
  simpa [akeys] using this

theorem dremove_sublist : ∀ (a : List Entry) (k : Key),
    List.Sublist (dremove a k) a
  | [], _ => List.Sublist.refl _
  | (k1, t1) :: rest, k => by
      by_cases hk : k1 = k
      · simp only [dremove, if_pos hk]
        exact List.sublist_cons_self (k1, t1) rest
      · simpa [dremove, hk] using (dremove_sublist rest k).cons₂ (k1, t1)

theorem not_mem_akeys_dremove : ∀ (a : List Entry) (k : Key),
    (akeys a).Nodup → k ∉ akeys (dremove a k)
  | [], k, _ => by simp [dremove, akeys]
  | (k1, t1) :: rest, k, hnd => by
      rw [akeys, List.map_cons, List.nodup_cons] at hnd
      have hnd1 : k1 ∉ akeys rest := hnd.1
      have hnd2 : (akeys rest).Nodup := hnd.2
      by_cases hk : k1 = k
      · subst hk; simpa [dremove] using hnd1
      · simp only [dremove, if_neg hk, akeys, List.map_cons, List.mem_cons]
        push_neg
        exact ⟨Ne.symm hk, not_mem_akeys_dremove rest k hnd2⟩

theorem queue_position_eq_none_iff : ∀ (q : List Entry) (k : Key),
    queue_position q k = none ↔ k ∉ akeys q
  | [], k => by simp [queue_position, akeys]
  | (k1, t1) :: rest, k => by
      by_cases hk : k1 = k
      · subst hk; simp [queue_position, akeys]
      · simp [queue_position, hk, akeys, Ne.symm hk,
          queue_position_eq_none_iff rest k]

/-! ## Characterization of the promotion loop and the maintenance pass -/

theorem promoteLoop_char (now : Time) : ∀ (q : List Entry) (slots moved : Nat)
    (a : List Entry), ∃ n newE,
    promoteLoop now slots moved q a = (a ++ newE, q.drop n) ∧
    newE.length ≤ slots ∧
    newE.length ≤ PROMOTE_BATCH - moved ∧
    (∀ p ∈ newE, p.2 = now) ∧
    List.Sublist (akeys newE) (akeys (q.take n)) ∧
    ((akeys a).Nodup → (akeys (a ++ newE)).Nodup) := by
  intro q
  induction q with
  | nil =>
      intro slots moved a
      refine ⟨0, [], ?_, by simp, by simp, by simp, by simp, ?_⟩
      · simp [promoteLoop]
      · intro h; simpa using h
  | cons p rest ih =>
      obtain ⟨k, ts⟩ := p
      intro slots moved a
      by_cases hc : 0 < slots ∧ moved < PROMOTE_BATCH
      · by_cases hm : (dlookup a k).isSome = true
        · obtain ⟨n, newE, heq, h1, h2, h3, h4, h5⟩ := ih slots moved a
          refine ⟨n + 1, newE, ?_, h1, h2, h3, ?_, h5⟩
          · simpa [promoteLoop, if_pos hc, hm] using heq
          · simp only [List.take_succ_cons, akeys, List.map_cons]
            exact h4.cons k
        · have hnone : dlookup a k = none := by
            cases hdl : dlookup a k
            · rfl
            · exact absurd (by simp [hdl]) hm
          obtain ⟨n, newE, heq, h1, h2, h3, h4, h5⟩ :=
            ih (slots - 1) (moved + 1) (dinsert a k now)
          rw [dinsert_of_lookup_none a k now hnone] at heq h5
          obtain ⟨hs, hb⟩ := hc
          refine ⟨n + 1, (k, now) :: newE, ?_, ?_, ?_, ?_, ?_, ?_⟩
          · rw [promoteLoop, if_pos ⟨hs, hb⟩, if_neg (by simp [hm]),
              dinsert_of_lookup_none a k now hnone, heq]
            simp
          · simp only [List.length_cons]; omega
          · simp only [List.length_cons]; omega
          · intro p hp
            rcases List.mem_cons.mp hp with h | h
            · rw [h]
            · exact h3 p h
          · simp only [List.take_succ_cons, akeys, List.map_cons]
            exact h4.cons₂ k
          · intro hnd
            have hk : k ∉ akeys a := (dlookup_eq_none_iff a k).mp hnone
            have hone : (akeys (a ++ [(k, now)])).Nodup := by
              rw [akeys, List.map_append, List.nodup_append]
              refine ⟨hnd, by simp, ?_⟩
              intro x hx hx2
              rw [List.map_cons, List.map_nil, List.mem_singleton] at hx2
              subst hx2
              exact hk hx
            have hres := h5 hone
            simpa [List.append_assoc] using hres
      · refine ⟨0, [], ?_, by simp, by simp, by simp, by simp, ?_⟩
        · simp [promoteLoop, if_neg hc]
        · intro h; simpa using h

theorem maintain_char (now : Time) (s : QState) : ∃ n newE,
    (maintain_and_promote now s).active = expireActive now s.active ++ newE ∧
    (maintain_and_promote now s).queue = s.queue.drop n ∧
    newE.length ≤ MAX_ACTIVE - (expireActive now s.active).length ∧
    newE.length ≤ PROMOTE_BATCH ∧
    (∀ p ∈ newE, p.2 = now) ∧
    List.Sublist (akeys newE) (akeys (s.queue.take n)) ∧
    ((akeys (expireActive now s.active)).Nodup →
      (akeys ((expireActive now s.active) ++ newE)).Nodup) := by
  obtain ⟨n, newE, heq, h1, h2, h3, h4, h5⟩ :=
    promoteLoop_char now s.queue
      (MAX_ACTIVE - (expireActive now s.active).length) 0
      (expireActive now s.active)
  exact ⟨n, newE, by rw [maintain_and_promote, heq],
    by rw [maintain_and_promote, heq], h1, by simpa using h2, h3, h4, h5⟩

theorem expireActive_sublist (now : Time) (a : List Entry) :
    List.Sublist (expireActive now a) a :=
  List.filter_sublist a

theorem maintain_active_length_le (now : Time) (s : QState)
    (h : s.active.length ≤ MAX_ACTIVE) :
    (maintain_and_promote now s).active.length ≤ MAX_ACTIVE := by
  obtain ⟨n, newE, ha, _, hslots, _, _, _, _⟩ := maintain_char now s
  have hf : (expireActive now s.active).length ≤ s.active.length :=
    (expireActive_sublist now s.active).length_le
  rw [ha, List.length_append]
  omega

theorem maintain_nodup (now : Time) (s : QState)
    (hA : (akeys s.active).Nodup) (hQ : (akeys s.queue).Nodup) :
    (akeys (maintain_and_promote now s).active).Nodup ∧
    (akeys (maintain_and_promote now s).queue).Nodup := by
  obtain ⟨n, newE, ha, hq, _, _, _, hsub, hnd⟩ := maintain_char now s
  have hexp : (akeys (expireActive now s.active)).Nodup :=
    List.Nodup.sublist ((expireActive_sublist now s.active).map Prod.fst) hA
  constructor
  · rw [ha]; exact hnd hexp
  · rw [hq]
    exact List.Nodup.sublist ((List.drop_sublist n s.queue).map Prod.fst) hQ

theorem maintain_keys_mem (now : Time) (s : QState) :
    (∀ x, x ∈ akeys (maintain_and_promote now s).active →
        x ∈ akeys s.active ∨ x ∈ akeys s.queue) ∧
    (∀ x, x ∈ akeys (maintain_and_promote now s).queue →
        x ∈ akeys s.queue) := by
  obtain ⟨n, newE, ha, hq, _, _, _, hsub, _⟩ := maintain_char now s
  constructor
  · intro x hx
    rw [ha] at hx
    simp only [akeys, List.map_append, List.mem_append] at hx
    rcases hx with hx | hx
    · exact Or.inl (((expireActive_sublist now s.active).map Prod.fst).subset hx)
    · refine Or.inr ?_
      have hx2 : x ∈ akeys (s.queue.take n) := hsub.subset hx
      exact ((List.take_sublist n s.queue).map Prod.fst).subset hx2
  · intro x hx
    rw [hq] at hx
    exact ((List.drop_sublist n s.queue).map Prod.fst).subset hx

theorem maintain_union_nodup (now : Time) (s : QState)
    (h : (akeys s.active ++ akeys s.queue).Nodup) :
    (akeys (maintain_and_promote now s).active ++
      akeys (maintain_and_promote now s).queue).Nodup := by
  rw [List.nodup_append] at h
  obtain ⟨hA, hQ, hdisj⟩ := h
  obtain ⟨n, newE, ha, hq, _, _, _, hsub, hnd⟩ := maintain_char now s
  have hexpsub := (expireActive_sublist now s.active).map Prod.fst
  have hexp : (akeys (expireActive now s.active)).Nodup :=
    List.Nodup.sublist hexpsub hA
  have hActNodup : (akeys ((expireActive now s.active) ++ newE)).Nodup :=
    hnd hexp
  have htdsplit : akeys (s.queue.take n) ++ akeys (s.queue.drop n) =
      akeys s.queue := by
    simp only [akeys, ← List.map_append, List.take_append_drop]
  have hQsplit : (akeys (s.queue.take n) ++ akeys (s.queue.drop n)).Nodup := by
    rw [htdsplit]; exact hQ
  rw [List.nodup_append] at hQsplit
  obtain ⟨_, hdropN, hdisjTD⟩ := hQsplit
  rw [ha, hq, List.nodup_append]
  refine ⟨hActNodup, hdropN, ?_⟩
  intro x hx hx2
  simp only [akeys, List.map_append, List.mem_append] at hx
  rcases hx with hx | hx
  · exact hdisj (hexpsub.subset hx)
      (((List.drop_sublist n s.queue).map Prod.fst).subset hx2)
  · exact hdisjTD (hsub.subset hx) hx2

/-! ## Per-operation preservation lemmas -/

theorem isSome_false_eq_none {o : Option Time} (h : ¬o.isSome = true) :
    o = none := by
  cases o
  · rfl
  · exact absurd rfl h

theorem statusBody_fst (k : Key) (s1 : QState) : (statusBody k s1).1 = s1 := by
  rw [statusBody]
  split
  · rfl
  · split <;> rfl

theorem enterBody_active_length (now : Time) (k : Key) (s1 : QState)
    (h : s1.active.length ≤ MAX_ACTIVE) :
    ((enterBody now k s1).1).active.length ≤ MAX_ACTIVE := by
  rw [enterBody]
  split_ifs with hm hlt
  · simpa [length_dinsert_of_mem s1.active k now hm] using h
  · have hnone := isSome_false_eq_none hm
    show (dinsert s1.active k now).length ≤ MAX_ACTIVE
    rw [dinsert_of_lookup_none _ _ _ hnone, List.length_append]
    simp only [List.length_singleton]
    omega
  · exact h

theorem heartbeatBody_active_length (now : Time) (k : Key) (s1 : QState)
    (h : s1.active.length ≤ MAX_ACTIVE) :
    ((heartbeatBody now k s1).1).active.length ≤ MAX_ACTIVE := by
  rw [heartbeatBody]
  split
  next hm => simpa [length_dinsert_of_mem s1.active k now hm] using h
  next hm => split <;> exact h

theorem enterBody_nodup (now : Time) (k : Key) (s1 : QState)
    (hA : (akeys s1.active).Nodup) (hQ : (akeys s1.queue).Nodup) :
    (akeys ((enterBody now k s1).1).active).Nodup ∧
    (akeys ((enterBody now k s1).1).queue).Nodup := by
  rw [enterBody]
  split_ifs with hm hlt
  · exact ⟨by simpa [akeys_dinsert_of_mem s1.active k now hm] using hA, hQ⟩
  · have hnone := isSome_false_eq_none hm
    refine ⟨?_, hQ⟩
    show (akeys (dinsert s1.active k now)).Nodup
    rw [dinsert_of_lookup_none _ _ _ hnone, akeys, List.map_append,
      List.nodup_append]
    refine ⟨hA, by simp, ?_⟩
    intro x hx hx2
    rw [List.map_cons, List.map_nil, List.mem_singleton] at hx2
    rw [hx2] at hx
    exact (dlookup_eq_none_iff s1.active k).mp hnone hx
  · refine ⟨hA, ?_⟩
    show (akeys (enterQueue now k s1.queue)).Nodup
    rw [enterQueue]
    split_ifs with hqn
    · rw [akeys, List.map_append, List.nodup_append]
      refine ⟨hQ, by simp, ?_⟩
      intro x hx hx2
      rw [List.map_cons, List.map_nil, List.mem_singleton] at hx2
      rw [hx2] at hx
      exact (queue_position_eq_none_iff s1.queue k).mp hqn hx
    · exact hQ

theorem heartbeatBody_nodup (now : Time) (k : Key) (s1 : QState)
    (hA : (akeys s1.active).Nodup) (hQ : (akeys s1.queue).Nodup) :
    (akeys ((heartbeatBody now k s1).1).active).Nodup ∧
    (akeys ((heartbeatBody now k s1).1).queue).Nodup := by
  rw [heartbeatBody]
  split
  next hm =>
    exact ⟨by simpa [akeys_dinsert_of_mem s1.active k now hm] using hA, hQ⟩
  next hm => split <;> exact ⟨hA, hQ⟩

theorem leaveRemove_nodup (k : Key) (s : QState)
    (hA : (akeys s.active).Nodup) (hQ : (akeys s.queue).Nodup) :
    (akeys (leaveRemove k s).active).Nodup ∧
    (akeys (leaveRemove k s).queue).Nodup :=
  ⟨List.Nodup.sublist ((dremove_sublist s.active k).map Prod.fst) hA,
   List.Nodup.sublist ((dremove_sublist s.queue k).map Prod.fst) hQ⟩

/-! ## State-machine invariants over all operation sequences -/

theorem stepOp_active_length (s : QState) (op : QOp)
    (h : s.active.length ≤ MAX_ACTIVE) :
    (stepOp s op).active.length ≤ MAX_ACTIVE := by
  cases op with
  | enter now k =>
      exact enterBody_active_length now k _ (maintain_active_length_le now s h)
  | status now k =>
      show ((statusBody k (maintain_and_promote now s)).1).active.length ≤ _
      rw [statusBody_fst]
      exact maintain_active_length_le now s h
  | heartbeat now k =>
      exact heartbeatBody_active_length now k _
        (maintain_active_length_le now s h)
  | leave now k =>
      refine maintain_active_length_le now _ ?_
      calc (leaveRemove k s).active.length
          ≤ s.active.length := (dremove_sublist s.active k).length_le
        _ ≤ MAX_ACTIVE := h

theorem stepOp_nodup (s : QState) (op : QOp)
    (hA : (akeys s.active).Nodup) (hQ : (akeys s.queue).Nodup) :
    (akeys (stepOp s op).active).Nodup ∧ (akeys (stepOp s op).queue).Nodup := by
  cases op with
  | enter now k =>
      obtain ⟨h1, h2⟩ := maintain_nodup now s hA hQ
      exact enterBody_nodup now k _ h1 h2
  | status now k =>
      have hfst : stepOp s (QOp.status now k) = maintain_and_promote now s :=
        statusBody_fst k _
      rw [hfst]
      exact maintain_nodup now s hA hQ
  | heartbeat now k =>
      obtain ⟨h1, h2⟩ := maintain_nodup now s hA hQ
      exact heartbeatBody_nodup now k _ h1 h2
  | leave now k =>
      obtain ⟨h1, h2⟩ := leaveRemove_nodup k s hA hQ
      exact maintain_nodup now _ h1 h2

theorem foldl_active_length : ∀ (ops : List QOp) (s : QState),
    s.active.length ≤ MAX_ACTIVE →
    (ops.foldl stepOp s).active.length ≤ MAX_ACTIVE
  | [], _, h => h
  | op :: rest, s, h =>
      foldl_active_length rest (stepOp s op) (stepOp_active_length s op h)

theorem foldl_nodup : ∀ (ops : List QOp) (s : QState),
    (akeys s.active).Nodup → (akeys s.queue).Nodup →
    (akeys (ops.foldl stepOp s).active).Nodup ∧
    (akeys (ops.foldl stepOp s).queue).Nodup
  | [], _, hA, hQ => ⟨hA, hQ⟩
  | op :: rest, s, hA, hQ =>
      foldl_nodup rest (stepOp s op) (stepOp_nodup s op hA hQ).1
        (stepOp_nodup s op hA hQ).2

/-! ## Equivalence of the maintenance pass with its specification wording -/

theorem decide_le_eq_not_decide_lt (x y : Time) :
    decide (x ≤ y) = !decide (y < x) := by
  rw [← decide_not]
  exact decide_eq_decide.mpr not_lt.symm

theorem expireActive_eq_spec (now : Time) (a : List Entry) :
    expireActive now a =
      a.filter (fun p => decide (now - p.2 ≤ HEARTBEAT_TIMEOUT)) := by
  rw [expireActive]
  exact List.filter_congr
    (fun p _ => (decide_le_eq_not_decide_lt (now - p.2) HEARTBEAT_TIMEOUT).symm)

theorem promoteStep_eq_promoteLoop (now : Time) : ∀ (q : List Entry)
    (slots moved : Nat) (a : List Entry),
    promoteStep now slots moved q a = promoteLoop now slots moved q a := by
  intro q
  induction q with
  | nil => intro slots moved a; rfl
  | cons p rest ih =>
      intro slots moved a
      obtain ⟨k, ts⟩ := p
      by_cases h1 : slots = 0 ∨ PROMOTE_BATCH ≤ moved
      · have hc : ¬(0 < slots ∧ moved < PROMOTE_BATCH) := by omega
        simp only [promoteStep, promoteLoop]
        rw [if_pos h1, if_neg hc]
      · have hc : 0 < slots ∧ moved < PROMOTE_BATCH := by
          push_neg at h1
          omega
        by_cases hm : k ∈ akeys a
        · have hsome : (dlookup a k).isSome = true :=
            (dlookup_isSome_iff a k).mpr hm
          simp only [promoteStep, promoteLoop]
          rw [if_neg h1, if_pos hc, if_pos hm, if_pos hsome]
          exact ih slots moved a
        · have hnone : dlookup a k = none := (dlookup_eq_none_iff a k).mpr hm
          simp only [promoteStep, promoteLoop]
          rw [if_neg h1, if_pos hc, if_neg hm, if_neg (by simp [hnone]),
            dinsert_of_lookup_none a k now hnone]
          exact ih (slots - 1) (moved + 1) (a ++ [(k, now)])

theorem maintain_eq_maintainSpec (now : Time) (s : QState) :
    maintain_and_promote now s = maintainSpec now s := by
  simp only [maintain_and_promote, maintainSpec, ← expireActive_eq_spec,
    promoteStep_eq_promoteLoop]

/-! ## Claim theorems: admission queue -/

/-- C1: for every sequence of admission-queue operations (enter, status,
heartbeat, leave) starting from the empty state, the size of the active set
never exceeds `MAX_ACTIVE`. -/
theorem claim_C1_active_bounded (ops : List QOp) :
    (runOps ops).active.length ≤ MAX_ACTIVE :=
  foldl_active_length ops initQState (by simp [initQState, MAX_ACTIVE])

/-- C2, counterexample: a reachable state in which one session key (here
`("q6", "t")`) is simultaneously in the active set and in the wait queue,
so keys are not unique across the union of the two structures.  The state
is reached by filling all ten slots, queueing six sessions, letting every
active session expire, and having the sixth queued session call `enter`:
the maintenance pass promotes only `PROMOTE_BATCH = 5` sessions, and
`enter` then admits the caller without removing its pending queue entry. -/
theorem claim_C2_cex :
    ¬ ((akeys (runOps cexOps).active ++ akeys (runOps cexOps).queue).Nodup) := by
  decide

/-- C2, amended: every session key appears at most once within the active
set and at most once within the wait queue, for every reachable state; a
key can however appear in both structures at once (see the
counterexample), and the promotion loop discards such redundant queue
entries when they reach the head. -/
theorem claim_C2_nodup_each (ops : List QOp) :
    (akeys (runOps ops).active).Nodup ∧ (akeys (runOps ops).queue).Nodup :=
  foldl_nodup ops initQState (by simp [initQState, akeys])
    (by simp [initQState, akeys])

/-- C7: a single maintenance pass equals the spec's description (expire
entries older than `HEARTBEAT_TIMEOUT`, then promote from the queue head,
discarding redundantly-active heads without consuming a slot), and the
promotions are bounded: at most `PROMOTE_BATCH` promotions, never more than
the free capacity left after expiry, each promoted entry carrying
last-seen `now`, promoted keys taken in FIFO order from a popped prefix of
the wait queue. -/
theorem claim_C7_maintain_pass :
    (∀ (now : Time) (s : QState),
      maintain_and_promote now s = maintainSpec now s) ∧
    (∀ (now : Time) (s : QState), ∃ n newE,
      (maintain_and_promote now s).active =
        expireActive now s.active ++ newE ∧
      (maintain_and_promote now s).queue = s.queue.drop n ∧
      newE.length ≤ PROMOTE_BATCH ∧
      newE.length ≤ MAX_ACTIVE - (expireActive now s.active).length ∧
      (∀ p ∈ newE, p.2 = now) ∧
      List.Sublist (akeys newE) (akeys (s.queue.take n))) := by
  refine ⟨maintain_eq_maintainSpec, ?_⟩
  intro now s
  obtain ⟨n, newE, ha, hq, h1, h2, h3, h4, _⟩ := maintain_char now s
  exact ⟨n, newE, ha, hq, h2, h1, h3, h4⟩

/-- C8, counterexample: `leave` does not begin with the maintenance pass.
With all ten slots full and fresh and one queued session, the source's
`leave` (removals first, maintenance last) promotes the waiter into the
freed slot and reports ten active sessions, while performing maintenance
first and then the removals would leave nine active sessions and the
waiter still queued. -/
theorem claim_C8_cex :
    queue_leave 0 ("k1", "t") fullState ≠
      queue_leave_spec 0 ("k1", "t") fullState := by
  decide

/-- C8, amended: `enter`, `status` and `heartbeat` begin with the
maintenance pass and then run their own logic on the maintained state;
`leave` instead performs its removals first and runs the maintenance pass
afterwards, so the counts it returns are still computed after maintenance. -/
theorem claim_C8_maintain_first :
    (∀ (now : Time) (k : Key) (s : QState),
      queue_enter now k s = enterBody now k (maintain_and_promote now s)) ∧
    (∀ (now : Time) (k : Key) (s : QState),
      queue_status now k s = statusBody k (maintain_and_promote now s)) ∧
    (∀ (now : Time) (k : Key) (s : QState),
      queue_heartbeat now k s =
        heartbeatBody now k (maintain_and_promote now s)) ∧
    (∀ (now : Time) (k : Key) (s : QState),
      (queue_leave now k s).1 = maintain_and_promote now (leaveRemove k s) ∧
      (queue_leave now k s).2 =
        QueueReply.okR (maintain_and_promote now (leaveRemove k s)).active.length
          MAX_ACTIVE) :=
  ⟨fun _ _ _ => rfl, fun _ _ _ => rfl, fun _ _ _ => rfl,
   fun _ _ _ => ⟨rfl, rfl⟩⟩

/-- C9: `leave` is total and always replies `ok` with the post-maintenance
active count; on a state whose two structures are duplicate-free it removes
the key from both the active set and the wait queue; and it preserves the
no-duplicate-keys invariant across the union of both structures. -/
theorem claim_C9_leave :
    (∀ (now : Time) (k : Key) (s : QState),
      (queue_leave now k s).2 =
        QueueReply.okR ((queue_leave now k s).1).active.length MAX_ACTIVE) ∧
    (∀ (now : Time) (k : Key) (s : QState),
      (akeys s.active).Nodup → (akeys s.queue).Nodup →
      k ∉ akeys ((queue_leave now k s).1).active ∧
      k ∉ akeys ((queue_leave now k s).1).queue) ∧
    (∀ (now : Time) (k : Key) (s : QState),
      (akeys s.active ++ akeys s.queue).Nodup →
      (akeys ((queue_leave now k s).1).active ++
        akeys ((queue_leave now k s).1).queue).Nodup) := by
  refine ⟨fun _ _ _ => rfl, ?_, ?_⟩
  · intro now k s hA hQ
    have hkA : k ∉ akeys (leaveRemove k s).active :=
      not_mem_akeys_dremove s.active k hA
    have hkQ : k ∉ akeys (leaveRemove k s).queue :=
      not_mem_akeys_dremove s.queue k hQ
    obtain ⟨hsubA, hsubQ⟩ := maintain_keys_mem now (leaveRemove k s)
    constructor
    · intro hk
      rcases hsubA k hk with h | h
      · exact hkA h
      · exact hkQ h
    · intro hk
      exact hkQ (hsubQ k hk)
  · intro now k s h
    refine maintain_union_nodup now (leaveRemove k s) ?_
    have hsub : List.Sublist
        (akeys (leaveRemove k s).active ++ akeys (leaveRemove k s).queue)
        (akeys s.active ++ akeys s.queue) :=
      List.Sublist.append ((dremove_sublist s.active k).map Prod.fst)
        ((dremove_sublist s.queue k).map Prod.fst)
    exact List.Nodup.sublist hsub h

/-- C9 witness: a concrete instantiation of the removal and
invariant-preservation parts of the `leave` theorem. -/
theorem claim_C9_leave_w :
    (("k1", "t") ∉ akeys ((queue_leave 0 ("k1", "t") fullState).1).active ∧
     ("k1", "t") ∉ akeys ((queue_leave 0 ("k1", "t") fullState).1).queue) ∧
    (akeys ((queue_leave 0 ("k1", "t") fullState).1).active ++
      akeys ((queue_leave 0 ("k1", "t") fullState).1).queue).Nodup :=
  ⟨claim_C9_leave.2.1 0 ("k1", "t") fullState (by decide) (by decide),
   claim_C9_leave.2.2 0 ("k1", "t") fullState (by decide)⟩

/-! ## Cache lemmas -/

theorem get_or_compute_hit (env : Env) (now : Time) (s : CState) (d : DataDoc)
    (ev : Event) (hd : s.cache.data = some d)
    (hf : env.fetch s.nFetch = .ok (some ev))
    (hk : s.cache.event_key = some (make_event_key (probeMeta ev))) :
    get_or_compute env now false s =
      (⟨s.cache, s.nFetch + 1, s.nCompute⟩, .ok d) := by
  simp [get_or_compute, hd, hf, hk]

/-! ## Claim theorems: compute cache -/

/-- C3, counterexample: with a populated cache, a fetch that reports an
event whose fingerprint differs from the stored one (a detected-stale
mandatory recompute per the claim), and an overlay computation that fails,
`get_or_compute(force=false)` swallows the failure and returns the old
cached document instead of propagating an error: the whole staleness branch
of the source, including the recompute, sits inside
`try: … except Exception: pass`. -/
theorem claim_C3_cex :
    envBoom.fetch sPop.nFetch = .ok (some evA) ∧
    make_event_key (probeMeta evA) ≠ "" ∧
    sPop.cache.event_key ≠ some (make_event_key (probeMeta evA)) ∧
    envBoom.compute sPop.nCompute (some evA) = .error "boom" ∧
    (get_or_compute envBoom 9 false sPop).2 = .ok docB := by
  refine ⟨rfl, ?_, ?_, rfl, ?_⟩ <;> decide

/-- C3, amended: a collaborator failure (fetch or compute) propagates to
the caller whenever the computation is forced (`force=true`) or first-ever
(no cache entry yet); a failure during a recompute triggered by a detected
fingerprint change is instead swallowed and the cached entry is returned
(see the counterexample). -/
theorem claim_C3_mandatory_propagates :
    (∀ (env : Env) (now : Time) (s : CState) (e : String),
      env.fetch s.nFetch = .error e →
      (get_or_compute env now true s).2 = .error e) ∧
    (∀ (env : Env) (now : Time) (s : CState) (ev : Option Event) (e : String),
      env.fetch s.nFetch = .ok ev → env.compute s.nCompute ev = .error e →
      (get_or_compute env now true s).2 = .error e) ∧
    (∀ (env : Env) (now : Time) (s : CState) (e : String),
      s.cache.data = none → env.fetch s.nFetch = .error e →
      (get_or_compute env now false s).2 = .error e) ∧
    (∀ (env : Env) (now : Time) (s : CState) (ev : Option Event) (e : String),
      s.cache.data = none → env.fetch s.nFetch = .ok ev →
      env.compute s.nCompute ev = .error e →
      (get_or_compute env now false s).2 = .error e) := by
  refine ⟨?_, ?_, ?_, ?_⟩
  · intro env now s e hf
    simp [get_or_compute, compute_and_store, hf]
  · intro env now s ev e hf hc
    simp [get_or_compute, compute_and_store, hf, hc]
  · intro env now s e hd hf
    simp [get_or_compute, compute_and_store, hd, hf]
  · intro env now s ev e hd hf hc
    simp [get_or_compute, compute_and_store, hd, hf, hc]

/-- C3 witness: the force-path propagation applied to a concrete failing
environment. -/
theorem claim_C3_mandatory_propagates_w :
    (get_or_compute envDown 0 true initCState).2 = .error "network down" :=
  claim_C3_mandatory_propagates.1 envDown 0 initCState "network down" rfl

/-- C4: with a cached entry and `force=false`, (1) an unchanged fingerprint
returns the stored entry with no recomputation and no cache mutation;
(2) two consecutive calls over an unchanged event, starting from the empty
cache, perform exactly one expensive computation in total; (3) a differing
fingerprint triggers exactly one recompute from the already-fetched event —
one fetch and one compute call — replacing the cache entry. -/
theorem claim_C4_staleness_probe :
    (∀ (env : Env) (now : Time) (s : CState) (d : DataDoc) (ev : Event),
      s.cache.data = some d → env.fetch s.nFetch = .ok (some ev) →
      s.cache.event_key = some (make_event_key (probeMeta ev)) →
      get_or_compute env now false s =
        (⟨s.cache, s.nFetch + 1, s.nCompute⟩, .ok d)) ∧
    (∀ (env : Env) (ev : Event) (d : DataDoc) (t1 t2 : Time),
      env.fetch 0 = .ok (some ev) → env.fetch 1 = .ok (some ev) →
      env.compute 0 (some ev) = .ok d →
      make_event_key d.meta = make_event_key (probeMeta ev) →
      get_or_compute env t2 false (get_or_compute env t1 false initCState).1 =
        (⟨⟨some d, some (make_event_key d.meta), t1⟩, 2, 1⟩, .ok d)) ∧
    (∀ (env : Env) (now : Time) (s : CState) (d0 d2 : DataDoc) (ev : Event),
      s.cache.data = some d0 → env.fetch s.nFetch = .ok (some ev) →
      make_event_key (probeMeta ev) ≠ "" →
      s.cache.event_key ≠ some (make_event_key (probeMeta ev)) →
      env.compute s.nCompute (some ev) = .ok d2 →
      get_or_compute env now false s =
        (⟨⟨some d2, some (make_event_key (probeMeta ev)), now⟩,
          s.nFetch + 1, s.nCompute + 1⟩, .ok d2)) := by
  refine ⟨get_or_compute_hit, ?_, ?_⟩
  · intro env ev d t1 t2 hf0 hf1 hc0 hkey
    have h1 : get_or_compute env t1 false initCState =
        (⟨⟨some d, some (make_event_key d.meta), t1⟩, 1, 1⟩, .ok d) := by
      simp [get_or_compute, initCState, initCache, compute_and_store, hf0, hc0]
    rw [h1]
    have h2 := get_or_compute_hit env t2
      (⟨⟨some d, some (make_event_key d.meta), t1⟩, 1, 1⟩ : CState) d ev rfl
      hf1 (by rw [hkey])
    exact h2
  · intro env now s d0 d2 ev hd hf hne hnk hc
    simp [get_or_compute, hd, hf, hne, hnk, hc]

/-- C4 witness: the two-consecutive-calls scenario at a concrete coherent
environment: one computation total, second call served from cache. -/
theorem claim_C4_staleness_probe_w :
    get_or_compute envA 2 false (get_or_compute envA 1 false initCState).1 =
      (⟨⟨some docA, some (make_event_key docA.meta), 1⟩, 2, 1⟩, .ok docA) :=
  claim_C4_staleness_probe.2.1 envA evA docA 1 2 rfl rfl rfl rfl

/-- C5: `force=true` runs `compute_and_store` unconditionally, and whenever
fetch and compute succeed it performs exactly one fetch and one compute,
replaces the cache entry with the new document and fingerprint, and returns
the new document — for every cache state. -/
theorem claim_C5_force :
    (∀ (env : Env) (now : Time) (s : CState),
      get_or_compute env now true s = compute_and_store env now s) ∧
    (∀ (env : Env) (now : Time) (s : CState) (ev : Option Event) (d : DataDoc),
      env.fetch s.nFetch = .ok ev → env.compute s.nCompute ev = .ok d →
      get_or_compute env now true s =
        (⟨⟨some d, some (make_event_key d.meta), now⟩,
          s.nFetch + 1, s.nCompute + 1⟩, .ok d)) := by
  refine ⟨fun _ _ _ => rfl, ?_⟩
  intro env now s ev d hf hc
  show compute_and_store env now s = _
  simp [compute_and_store, hf, hc]

/-- C5 witness: a forced refresh on a populated cache state with a
mismatching stored fingerprint still recomputes and replaces the entry. -/
theorem claim_C5_force_w :
    get_or_compute envA 7 true sPop =
      (⟨⟨some docA, some (make_event_key docA.meta), 7⟩, 5, 3⟩, .ok docA) :=
  claim_C5_force.2 envA 7 sPop (some evA) docA rfl rfl

/-- C6: with a cached entry, a failing staleness probe (fetch error) makes
`get_or_compute(force=false)` return the cached document unchanged — same
`data`, `event_key` and `ts`, no error surfaced. -/
theorem claim_C6_probe_failure (env : Env) (now : Time) (s : CState)
    (d : DataDoc) (e : String) (hd : s.cache.data = some d)
    (hf : env.fetch s.nFetch = .error e) :
    get_or_compute env now false s =
      (⟨s.cache, s.nFetch + 1, s.nCompute⟩, .ok d) := by
  simp [get_or_compute, hd, hf]

/-- C6 witness: the probe-failure fallback at a concrete environment. -/
theorem claim_C6_probe_failure_w :
    get_or_compute envDown 9 false sPop =
      (⟨sPop.cache, 5, 2⟩, .ok docB) :=
  claim_C6_probe_failure envDown 9 sPop docB "network down" rfl rfl

/-- C10: with a cached entry, a successful probe that reports no event at
all (`None`) makes `get_or_compute(force=false)` return the cached entry
unchanged, without deriving a candidate fingerprint and without
recomputation. -/
theorem claim_C10_probe_no_event (env : Env) (now : Time) (s : CState)
    (d : DataDoc) (hd : s.cache.data = some d)
    (hf : env.fetch s.nFetch = .ok none) :
    get_or_compute env now false s =
      (⟨s.cache, s.nFetch + 1, s.nCompute⟩, .ok d) := by
  simp [get_or_compute, hd, hf]

/-- C10 witness: the no-event fallback at a concrete environment. -/
theorem claim_C10_probe_no_event_w :
    get_or_compute envNoEvent 9 false sPop =
      (⟨sPop.cache, 5, 2⟩, .ok docB) :=
  claim_C10_probe_no_event envNoEvent 9 sPop docB rfl rfl
